import Mathlib

/-!
Verification of the KOOK WebSocket gateway client (`KookWSClient` in the
repository source, WS client section of `src/src/types.ts`).

The embedding covers:
* the sequence reassembler: `handleEvent`, `processEventBuffer`, and the
  `Map<number, signal>` buffer (`bufGet` / `bufSet` / `bufDelete` model
  `Map.get` / `Map.set` / `Map.delete`; the map is only ever accessed
  through these operations, never iterated);
* session bookkeeping: `handleReconnect`, `handleResumeAck`,
  `startHeartbeat`, `reconnectWithBackoff` and the HELLO-timeout path of
  `connect` / `connectFresh`;
* the heartbeat jitter computation of `startHeartbeat`;
* the frame decoder `parseMessage`;
* a discrete-event model of the timer behaviour of `attemptRecovery`,
  `tryResume`, `sendPing` and the pong-timeout callback, faithful to the
  host event loop: timers with equal deadlines fire in registration order.

The class state (`ws`, `sessionId`, `lastSn`, `heartbeatTimer`,
`pongTimeout`, `reconnectAttempts`, `buffer`, `stopped`) is `ClientState`;
timer handles are abstracted to booleans (set / cleared) except in the
discrete-event model, where they are timer ids so that `clearTimeout` /
`clearInterval` can cancel a scheduled callback.
-/

/-- A decoded wire signal (`KookWSSignal`): `s` is the signal kind
(0=EVENT, 1=HELLO, 2=PING, 3=PONG, 4=RESUME, 5=RECONNECT, 6=RESUME_ACK),
`d` the payload, `sn` the sequence number (present only for events). -/
structure WSSignal (α : Type) where
  s : Nat
  d : α
  sn : Option Nat
  deriving DecidableEq

/-- Lookup in the reassembly buffer: `Map.get(k)`. -/
def bufGet {α : Type} : List (Nat × α) → Nat → Option α
  | [], _ => none
  | (a, v) :: t, k => if a = k then some v else bufGet t k

/-- Removal from the reassembly buffer: `Map.delete(k)`. -/
def bufDelete {α : Type} : List (Nat × α) → Nat → List (Nat × α)
  | [], _ => []
  | (a, v) :: t, k => if a = k then bufDelete t k else (a, v) :: bufDelete t k

/-- Insertion into the reassembly buffer: `Map.set(k, v)` (replaces any
existing entry for the key). -/
def bufSet {α : Type} (b : List (Nat × α)) (k : Nat) (v : α) : List (Nat × α) :=
  bufDelete b k ++ [(k, v)]

/-- Mutable state of `KookWSClient`.  `wsOpen` models the `ws` field being
non-null with an OPEN socket; `heartbeatTimer` / `pongTimeout` model the
corresponding timer handles being set; `buffer` stores, for each buffered
sequence number, the event payload (`signal.d`, the only component of a
buffered signal that is ever used). -/
structure ClientState (α : Type) where
  wsOpen : Bool
  sessionId : Option String
  lastSn : Nat
  heartbeatTimer : Bool
  pongTimeout : Bool
  reconnectAttempts : Nat
  buffer : List (Nat × α)
  stopped : Bool
  deriving DecidableEq

/-- The `while (true)` loop of `processEventBuffer`, with an explicit
iteration bound.  Each iteration that continues removes the entry at key
`lastSn + 1` from the buffer, so `buffer.length` iterations always suffice
(`processEventBufferFuel_irrel` and `processEventBuffer_fix` below prove
that the bound never truncates the loop).  Returns the new state and the
payloads passed to `dispatchEvent`, in dispatch order. -/
def processEventBufferFuel {α : Type} : Nat → ClientState α → ClientState α × List α
  | 0, st => (st, [])
  | fuel + 1, st =>
    match bufGet st.buffer (st.lastSn + 1) with
    | some v =>
      let r := processEventBufferFuel fuel
        { st with lastSn := st.lastSn + 1, buffer := bufDelete st.buffer (st.lastSn + 1) }
      (r.1, v :: r.2)
    | none => (st, [])

/-- `processEventBuffer`: drain the contiguous run starting at
`lastSn + 1` from the buffer, dispatching each drained payload. -/
def processEventBuffer {α : Type} (st : ClientState α) : ClientState α × List α :=
  processEventBufferFuel st.buffer.length st

/-- `handleEvent`: an EVENT signal with sequence number `sn` and payload
`d`.  Missing `sn` returns immediately; `sn = lastSn + 1` dispatches and
drains the buffer; `sn > lastSn + 1` buffers; `sn ≤ lastSn` is a duplicate
and is ignored.  Returns the new state and the payloads passed to
`dispatchEvent`, in dispatch order. -/
def handleEvent {α : Type} (st : ClientState α) (sn : Option Nat) (d : α) :
    ClientState α × List α :=
  match sn with
  | none => (st, [])
  | some sn =>
    if sn = st.lastSn + 1 then
      let r := processEventBuffer { st with lastSn := sn }
      (r.1, d :: r.2)
    else if st.lastSn + 1 < sn then
      ({ st with buffer := bufSet st.buffer sn d }, [])
    else
      (st, [])

/-- A sequence of `handleEvent` calls (each pair is `(sn, payload)` of one
EVENT signal), collecting all dispatched payloads in order. -/
def observeList {α : Type} (st : ClientState α) : List (Nat × α) → ClientState α × List α
  | [] => (st, [])
  | (sn, d) :: rest =>
    let r1 := handleEvent st (some sn) d
    let r2 := observeList r1.1 rest
    (r2.1, r1.2 ++ r2.2)

/-- `startHeartbeat` (timer-handle view): the heartbeat interval timer is
set after the call. -/
def startHeartbeat {α : Type} (st : ClientState α) : ClientState α :=
  { st with heartbeatTimer := true }

/-- `handleResumeAck`: store the session id from the RESUME_ACK payload,
then restart the heartbeat. -/
def handleResumeAck {α : Type} (st : ClientState α) (sid : String) : ClientState α :=
  startHeartbeat { st with sessionId := some sid }

/-- Externally visible actions of the session state machine, used to record
what the client does (and in which order) on a given code path. -/
inductive NetAction
  | wait (ms : Nat)
  | closeTransport
  | enterConnecting
  | sendPing
  | sendResume
  | restartHeartbeat
  deriving DecidableEq

/-- Whether an action is a timed wait. -/
def NetAction.isWait : NetAction → Bool
  | NetAction.wait _ => true
  | _ => false

/-- `handleReconnect`: reset `lastSn` to 0, clear `sessionId`, clear the
buffer, close the socket if present, clear both timers, and (unless
stopped) immediately call `connectFresh` — recorded as `enterConnecting`,
since `connectFresh` is the CONNECTING stage (gateway fetch + transport
open).  Note: no sleep happens between the reset and `connectFresh`. -/
def handleReconnect {α : Type} (st : ClientState α) : ClientState α × List NetAction :=
  let st1 := { st with lastSn := 0, sessionId := none, buffer := [] }
  let r2 := if st1.wsOpen
    then ({ st1 with wsOpen := false }, [NetAction.closeTransport])
    else (st1, ([] : List NetAction))
  let st3 := { r2.1 with heartbeatTimer := false, pongTimeout := false }
  if st3.stopped then (st3, r2.2) else (st3, r2.2 ++ [NetAction.enterConnecting])

/-- The backoff delay used for reconnection attempt `n` (numbering from 1):
`Math.min(60_000, 1000 * Math.pow(2, attempts - 1))` in
`reconnectWithBackoff`. -/
def nextDelay (n : Nat) : Nat :=
  min 60000 (1000 * 2 ^ (n - 1))

/-- `reconnectWithBackoff`: unless stopped, increment `reconnectAttempts`,
sleep the backoff delay, and (unless stopped) call `connectFresh`. -/
def reconnectWithBackoff {α : Type} (st : ClientState α) : ClientState α × List NetAction :=
  if st.stopped then (st, []) else
    let st1 := { st with reconnectAttempts := st.reconnectAttempts + 1 }
    let acts := [NetAction.wait (nextDelay st1.reconnectAttempts)]
    if st1.stopped then (st1, acts) else (st1, acts ++ [NetAction.enterConnecting])

/-- The HELLO-timeout episode of `connect` / `connectFresh`: when no HELLO
arrives within 6000 ms the timeout callback closes the socket and rejects
the `connect` promise.  That single failure then triggers
`reconnectWithBackoff` twice: once from the `catch` in `connectFresh`
(the rejected `await this.connect(url)`), and once from the socket
`close` event handler (which first clears the heartbeat and pong timers).
Both calls are guarded only by `!this.stopped`. -/
def onHelloTimeout {α : Type} (st : ClientState α) : ClientState α × List NetAction :=
  let st1 := { st with wsOpen := false }
  let r2 := if st1.stopped then (st1, ([] : List NetAction)) else reconnectWithBackoff st1
  let st3 := { r2.1 with heartbeatTimer := false, pongTimeout := false }
  let r4 := if st3.stopped then (st3, ([] : List NetAction)) else reconnectWithBackoff st3
  (r4.1, NetAction.closeTransport :: (r2.2 ++ r4.2))

/-- The heartbeat interval computed by `startHeartbeat` from one random
draw `r = Math.floor(Math.random() * HEARTBEAT_JITTER_MS * 2)` (so
`r < 10000`): `HEARTBEAT_INTERVAL_MS + (r - HEARTBEAT_JITTER_MS)`,
i.e. 30000 plus a jitter in [-5000, 4999]. -/
def hbInterval (r : Nat) : Nat :=
  30000 + r - 5000

/-- Time of the `n`-th tick (0-based) of a heartbeat started with draw `r`:
`setInterval` fires at fixed multiples of the one interval computed at
`startHeartbeat` time. -/
def hbTickTime (r n : Nat) : Nat :=
  (n + 1) * hbInterval r

/-- Gap between consecutive heartbeat ticks `n` and `n + 1` of one run. -/
def hbGap (r n : Nat) : Nat :=
  hbTickTime r (n + 1) - hbTickTime r n

/-- The shapes an inbound raw frame can take (`WebSocket.RawData`):
a `Buffer`, an `ArrayBuffer`, or an array of `Buffer`s. -/
inductive RawData (β : Type)
  | buffer (b : β)
  | arrayBuffer (b : β)
  | bufferArray (bs : List β)

/-- External codec collaborators of `parseMessage`: `inflateAsync` (fails
with `none`, mirroring the caught rejection), `Buffer.toString("utf-8")`,
`Buffer.concat`, and `JSON.parse` (fails with `none`, mirroring the caught
exception). -/
structure Codec (β α : Type) where
  inflate : β → Option String
  toUtf8 : β → String
  concatBufs : List β → β
  parseJson : String → Option (WSSignal α)

/-- Text-extraction phase of `parseMessage`: with compression enabled and a
`Buffer` frame, try `inflateAsync` first and fall back to plain UTF-8 text
on failure; other frame shapes are decoded as UTF-8 directly. -/
def decodeText {β α : Type} (compress : Bool) (c : Codec β α) : RawData β → String
  | RawData.buffer b =>
    if compress then
      match c.inflate b with
      | some s => s
      | none => c.toUtf8 b
    else c.toUtf8 b
  | RawData.arrayBuffer b => c.toUtf8 b
  | RawData.bufferArray bs => c.toUtf8 (c.concatBufs bs)

/-- `parseMessage`: extract text, then `JSON.parse` it inside a
`try`/`catch`.  Result is the decoded signal (or `none` when the frame is
dropped) together with whether the decode error was reported via
`options.error`.  The function is total: every failure path is caught
inside `parseMessage` and nothing propagates to the caller. -/
def parseMessage {β α : Type} (compress : Bool) (c : Codec β α) (data : RawData β) :
    Option (WSSignal α) × Bool :=
  match c.parseJson (decodeText compress c data) with
  | some sig => (some sig, false)
  | none => (none, true)

/-- States reachable by the sequence-reassembler operations: any state with
`lastSn = 0` and an empty buffer, closed under `handleEvent`,
`processEventBuffer`, and the reset performed by `handleReconnect`. -/
inductive ReachableR {α : Type} : ClientState α → Prop
  | init (st : ClientState α) : st.lastSn = 0 → st.buffer = [] → ReachableR st
  | event (st : ClientState α) (sn : Option Nat) (d : α) :
      ReachableR st → ReachableR (handleEvent st sn d).1
  | drain (st : ClientState α) : ReachableR st → ReachableR (processEventBuffer st).1
  | reset (st : ClientState α) : ReachableR st → ReachableR (handleReconnect st).1

/-- Continuation points of the `attemptRecovery` coroutine (one value per
`await` in the source): after `sleep((i+1)*2000)` in the extra-probe loop;
after the 6000 ms `sleep` following an extra probe; after
`sleep((i+1)*8000)` in the resume loop; after the 6000 ms `sleep` inside
`tryResume`. -/
inductive RecPC
  | probeSleep (i : Nat)
  | probeCheck (i : Nat)
  | resumeSleep (i : Nat)
  | resumeCheck (i : Nat)
  deriving DecidableEq

/-- Scheduled callbacks of the discrete-event model: the pong-timeout
timer set by `sendPing` (with its timer id), a tick of the heartbeat
interval timer (with its timer id), and the resumption of a suspended
`attemptRecovery` coroutine. -/
inductive SimEv
  | pongFire (id : Nat)
  | hbTick (id : Nat)
  | wake (pc : RecPC)
  deriving DecidableEq

/-- Observable actions of the recovery episode, timestamped. -/
inductive SimAction
  | ping (t : Nat)
  | resumeReq (t : Nat)
  | reconnect (t : Nat)
  | tier1Success (t : Nat)
  | resumeSuccess (t : Nat)
  | pongTimeoutFired (t : Nat)
  deriving DecidableEq

/-- Shared state of the discrete-event model: current time, the
`KookWSClient` fields touched by recovery, the pending-timer queue
(entries are `(dueTime, registrationSeq, callback)`; `registrationSeq` is
also used as the timer id), and the action log. -/
structure SimState where
  now : Nat
  stopped : Bool
  wsOpen : Bool
  hasSession : Bool
  hbTimer : Option Nat
  hbIntervalMs : Nat
  pongTo : Option Nat
  queue : List (Nat × Nat × SimEv)
  nextId : Nat
  log : List SimAction
  deriving DecidableEq

/-- Register a callback `delay` ms in the future (`setTimeout`).  Timers
with equal deadlines fire in registration order, which the scheduler
realizes by comparing `(dueTime, registrationSeq)` lexicographically. -/
def simSched (s : SimState) (delay : Nat) (ev : SimEv) : SimState :=
  { s with queue := s.queue ++ [(s.now + delay, s.nextId, ev)], nextId := s.nextId + 1 }

/-- `clearPongTimeout`: cancel the scheduled pong-timeout callback (if it
has not fired yet) and null the field. -/
def simClearPong (s : SimState) : SimState :=
  match s.pongTo with
  | none => s
  | some id =>
    { s with pongTo := none,
             queue := s.queue.filter (fun e => !(decide (e.2.2 = SimEv.pongFire id))) }

/-- `clearHeartbeat`: cancel the heartbeat interval timer and null the
field. -/
def simClearHb (s : SimState) : SimState :=
  match s.hbTimer with
  | none => s
  | some id =>
    { s with hbTimer := none,
             queue := s.queue.filter (fun e => !(decide (e.2.2 = SimEv.hbTick id))) }

/-- `sendPing`: if the socket is open, send a PING, clear any previous
pong timeout, and schedule a fresh 6000 ms pong-timeout callback (whose
handler invokes `attemptRecovery`). -/
def simSendPing (s : SimState) : SimState :=
  if s.wsOpen then
    let s1 := simClearPong { s with log := s.log ++ [SimAction.ping s.now] }
    { s1 with pongTo := some s1.nextId,
              queue := s1.queue ++ [(s1.now + 6000, s1.nextId, SimEv.pongFire s1.nextId)],
              nextId := s1.nextId + 1 }
  else s

/-- `startHeartbeat`: clear any previous interval timer and start a new
one.  The interval is the single jittered value drawn for this run
(`hbIntervalMs`). -/
def simStartHb (s : SimState) : SimState :=
  let s1 := simClearHb s
  { s1 with hbTimer := some s1.nextId,
            queue := s1.queue ++ [(s1.now + s1.hbIntervalMs, s1.nextId, SimEv.hbTick s1.nextId)],
            nextId := s1.nextId + 1 }

/-- `handleReconnect` as seen by the recovery model: log the full
reconnect, drop the session, close the socket, clear both timers.  (The
subsequent `connectFresh` is outside the modelled episode.) -/
def simDoReconnect (s : SimState) : SimState :=
  simClearPong (simClearHb
    { s with log := s.log ++ [SimAction.reconnect s.now],
             wsOpen := false, hasSession := false })

/-- Head of iteration `i` of the extra-probe loop: `if (this.stopped)
return; await sleep((i + 1) * 2000)`. -/
def probeLoopEnter (s : SimState) (i : Nat) : SimState :=
  if s.stopped then s
  else simSched s ((i + 1) * 2000) (SimEv.wake (RecPC.probeSleep i))

/-- Head of iteration `i` of the resume loop: `if (this.stopped) return;
await sleep((i + 1) * 8000)`. -/
def resumeLoopEnter (s : SimState) (i : Nat) : SimState :=
  if s.stopped then s
  else simSched s ((i + 1) * 8000) (SimEv.wake (RecPC.resumeSleep i))

/-- Entry of `attemptRecovery`, run synchronously up to its first `await`:
clear the heartbeat and pong timers, then enter the extra-probe loop. -/
def recoveryBegin (s : SimState) : SimState :=
  probeLoopEnter (simClearPong (simClearHb s)) 0

/-- Resume the `attemptRecovery` coroutine at continuation `pc`, running
synchronously up to the next `await` (or to completion). -/
def runPC (s : SimState) : RecPC → SimState
  | RecPC.probeSleep i =>
    if s.wsOpen then
      simSched (simSendPing s) 6000 (SimEv.wake (RecPC.probeCheck i))
    else
      if i = 0 then probeLoopEnter s 1 else resumeLoopEnter s 0
  | RecPC.probeCheck i =>
    if s.pongTo = none then
      simStartHb { s with log := s.log ++ [SimAction.tier1Success s.now] }
    else
      let s1 := simClearPong s
      if i = 0 then probeLoopEnter s1 1 else resumeLoopEnter s1 0
  | RecPC.resumeSleep i =>
    if s.wsOpen && s.hasSession then
      simSched { s with log := s.log ++ [SimAction.resumeReq s.now] } 6000
        (SimEv.wake (RecPC.resumeCheck i))
    else
      if i = 0 then resumeLoopEnter s 1 else simDoReconnect s
  | RecPC.resumeCheck i =>
    if s.hbTimer.isSome then { s with log := s.log ++ [SimAction.resumeSuccess s.now] }
    else if i = 0 then resumeLoopEnter s 1 else simDoReconnect s

/-- Select the pending timer that fires next: least `(dueTime, seq)`. -/
def pickMin : List (Nat × Nat × SimEv) → Option (Nat × Nat × SimEv)
  | [] => none
  | e :: t =>
    match pickMin t with
    | none => some e
    | some m => if m.1 < e.1 || (m.1 = e.1 && m.2.1 < e.2.1) then some m else some e

/-- Remove the first occurrence of an element from a list. -/
def removeFirst {β : Type} [DecidableEq β] : List β → β → List β
  | [], _ => []
  | x :: t, y => if x = y then t else x :: removeFirst t y

/-- One step of the event loop: pop the next timer and run its callback.
A pong-timeout callback logs and synchronously calls `attemptRecovery`
(spawning a new episode); a heartbeat tick (if its interval timer is
still the live one) sends a ping and re-arms itself; a wake resumes a
suspended recovery coroutine. -/
def simStep (s : SimState) : SimState :=
  match pickMin s.queue with
  | none => s
  | some e =>
    let s1 := { s with queue := removeFirst s.queue e, now := e.1 }
    match e.2.2 with
    | SimEv.pongFire _ =>
      recoveryBegin { s1 with log := s1.log ++ [SimAction.pongTimeoutFired s1.now] }
    | SimEv.hbTick id =>
      if s1.hbTimer = some id then
        simSched (simSendPing s1) s1.hbIntervalMs (SimEv.hbTick id)
      else s1
    | SimEv.wake pc => runPC s1 pc

/-- Run the event loop for a bounded number of steps. -/
def simRun : Nat → SimState → SimState
  | 0, s => s
  | n + 1, s => simRun n (simStep s)

/-- The failing input for the recovery-tier claim: at `t = 0` the pong
response timeout of a normal heartbeat ping has just fired while the
session is established (`sessionId` known, transport open, not stopped):
the heartbeat interval timer (id 0, drawn interval 30000 ms) is live with
its next tick queued, the fired pong timer (id 1) is stale in the field,
and no inbound frame (PONG or RESUME_ACK) ever arrives — the environment
contributes no events at all.  `recoveryBegin` is the body of the fired
timeout's `attemptRecovery` call. -/
def initRecoverySim : SimState :=
  recoveryBegin
    { now := 0, stopped := false, wsOpen := true, hasSession := true,
      hbTimer := some 0, hbIntervalMs := 30000, pongTo := some 1,
      queue := [(30000, 0, SimEv.hbTick 0)], nextId := 2, log := [] }

/-- Predicate selectors on logged actions. -/
def SimAction.isPing : SimAction → Bool
  | SimAction.ping _ => true
  | _ => false

/-- Whether an action is a RESUME request. -/
def SimAction.isResume : SimAction → Bool
  | SimAction.resumeReq _ => true
  | _ => false

/-- Whether an action is a full reconnect. -/
def SimAction.isReconnect : SimAction → Bool
  | SimAction.reconnect _ => true
  | _ => false

/-- Whether an action is a tier-1 (extra-probe) success declaration. -/
def SimAction.isTier1 : SimAction → Bool
  | SimAction.tier1Success _ => true
  | _ => false

/-- Invariant of the reassembler relating a state to the multiset of
sequence numbers observed so far (`obs`) when every observed call carried
payload `f sn`: buffered entries hold the right payload, sit strictly
beyond `lastSn + 1`, and were observed; every delivered sequence number
was observed; every observed sequence number was either delivered or is
still buffered. -/
def SInv (f : Nat → Nat) (obs : List Nat) (st : ClientState Nat) : Prop :=
  (∀ k v, bufGet st.buffer k = some v → v = f k ∧ st.lastSn + 1 < k ∧ k ∈ obs) ∧
  (∀ j, 1 ≤ j → j ≤ st.lastSn → j ∈ obs) ∧
  (∀ j, j ∈ obs → j ≤ st.lastSn ∨ (bufGet st.buffer j).isSome = true)

/-- A freshly connected client: `lastSn = 0`, empty buffer. -/
def initClient : ClientState Nat :=
  { wsOpen := true, sessionId := none, lastSn := 0, heartbeatTimer := false,
    pongTimeout := false, reconnectAttempts := 0, buffer := [], stopped := false }

/-- A connected client mid-session (session id known, one buffered gap),
used as the concrete input of several witnesses. -/
def connectedClient : ClientState Nat :=
  { wsOpen := true, sessionId := some "hjEU3Ax", lastSn := 2, heartbeatTimer := true,
    pongTimeout := false, reconnectAttempts := 0, buffer := [(5, 55)], stopped := false }

/-- A concrete codec instance used to witness the decoder theorems:
buffer 0 decompresses to the text parsing to a signal, every other buffer
fails decompression and decodes to text that does not parse. -/
def demoCodec : Codec Nat Nat :=
  { inflate := fun b => if b = 0 then some "sig" else none,
    toUtf8 := fun _ => "garbled",
    concatBufs := fun bs => bs.foldl (fun acc b => acc + b) 0,
    parseJson := fun t => if t = "sig" then some { s := 0, d := 9, sn := some 1 } else none }

theorem bufGet_bufDelete {α : Type} (k : Nat) :
    ∀ (b : List (Nat × α)) (j : Nat),
      bufGet (bufDelete b k) j = if j = k then none else bufGet b j := by
  intro b
  induction b with
  | nil => intro j; simp [bufDelete, bufGet]
  | cons p t ih =>
    intro j
    obtain ⟨a, v⟩ := p
    simp only [bufDelete, bufGet]
    by_cases hak : a = k <;> by_cases haj : a = j <;> simp_all [bufGet]

theorem bufGet_append_some {α : Type} :
    ∀ (l1 l2 : List (Nat × α)) (j : Nat) (v : α),
      bufGet l1 j = some v → bufGet (l1 ++ l2) j = some v := by
  intro l1
  induction l1 with
  | nil => intro l2 j v h; simp [bufGet] at h
  | cons p t ih =>
    intro l2 j v h
    obtain ⟨a, w⟩ := p
    by_cases haj : a = j
    · simp [bufGet, haj] at h ⊢; exact h
    · simp [bufGet, haj] at h ⊢; exact ih l2 j v h

theorem bufGet_append_none {α : Type} :
    ∀ (l1 l2 : List (Nat × α)) (j : Nat),
      bufGet l1 j = none → bufGet (l1 ++ l2) j = bufGet l2 j := by
  intro l1
  induction l1 with
  | nil => intro l2 j _; rfl
  | cons p t ih =>
    intro l2 j h
    obtain ⟨a, w⟩ := p
    by_cases haj : a = j
    · simp [bufGet, haj] at h
    · simp [bufGet, haj] at h ⊢; exact ih l2 j h

theorem bufGet_bufSet {α : Type} (b : List (Nat × α)) (k j : Nat) (v : α) :
    bufGet (bufSet b k v) j = if j = k then some v else bufGet b j := by
  unfold bufSet
  by_cases hjk : j = k
  · subst hjk
    have h := bufGet_bufDelete j b j
    rw [if_pos rfl] at h
    rw [bufGet_append_none _ _ _ h, if_pos rfl]
    simp [bufGet]
  · have h := bufGet_bufDelete k b j
    rw [if_neg hjk] at h
    rw [if_neg hjk]
    cases hg : bufGet b j with
    | some w => exact bufGet_append_some _ _ _ _ (h.trans hg)
    | none =>
      rw [bufGet_append_none _ _ _ (h.trans hg)]
      simp [bufGet]
      exact fun hh => hjk hh.symm

theorem bufDelete_length_le {α : Type} (k : Nat) :
    ∀ b : List (Nat × α), (bufDelete b k).length ≤ b.length := by
  intro b
  induction b with
  | nil => simp [bufDelete]
  | cons p t ih =>
    obtain ⟨a, v⟩ := p
    by_cases hak : a = k <;> simp [bufDelete, hak] <;> omega

theorem bufDelete_length_lt {α : Type} (k : Nat) :
    ∀ (b : List (Nat × α)) (v : α),
      bufGet b k = some v → (bufDelete b k).length < b.length := by
  intro b
  induction b with
  | nil => intro v h; simp [bufGet] at h
  | cons p t ih =>
    intro v h
    obtain ⟨a, w⟩ := p
    by_cases hak : a = k
    · simp only [bufDelete, if_pos hak, List.length_cons]
      have := bufDelete_length_le k t
      omega
    · simp [bufGet, hak] at h
      simp only [bufDelete, if_neg hak, List.length_cons]
      have := ih v h
      omega

theorem processEventBufferFuel_none {α : Type} (fuel : Nat) (st : ClientState α)
    (h : bufGet st.buffer (st.lastSn + 1) = none) :
    processEventBufferFuel fuel st = (st, []) := by
  cases fuel with
  | zero => rfl
  | succ n => simp [processEventBufferFuel, h]

theorem processEventBufferFuel_irrel {α : Type} :
    ∀ (m n : Nat) (st : ClientState α), st.buffer.length ≤ m → st.buffer.length ≤ n →
      processEventBufferFuel m st = processEventBufferFuel n st := by
  intro m
  induction m with
  | zero =>
    intro n st hm _
    have hb : st.buffer = [] := List.length_eq_zero.mp (Nat.le_zero.mp hm)
    have hg : bufGet st.buffer (st.lastSn + 1) = none := by rw [hb]; rfl
    rw [processEventBufferFuel_none 0 st hg, processEventBufferFuel_none n st hg]
  | succ m ih =>
    intro n st hm hn
    cases n with
    | zero =>
      have hb : st.buffer = [] := List.length_eq_zero.mp (Nat.le_zero.mp hn)
      have hg : bufGet st.buffer (st.lastSn + 1) = none := by rw [hb]; rfl
      rw [processEventBufferFuel_none _ st hg, processEventBufferFuel_none _ st hg]
    | succ n =>
      cases hg : bufGet st.buffer (st.lastSn + 1) with
      | none => rw [processEventBufferFuel_none _ st hg, processEventBufferFuel_none _ st hg]
      | some v =>
        have hlt := bufDelete_length_lt (st.lastSn + 1) st.buffer v hg
        simp only [processEventBufferFuel, hg]
        rw [ih n { st with lastSn := st.lastSn + 1,
                           buffer := bufDelete st.buffer (st.lastSn + 1) }
          (by show (bufDelete st.buffer (st.lastSn + 1)).length ≤ m; omega)
          (by show (bufDelete st.buffer (st.lastSn + 1)).length ≤ n; omega)]

theorem processEventBuffer_fix {α : Type} :
    ∀ (fuel : Nat) (st : ClientState α), st.buffer.length ≤ fuel →
      bufGet (processEventBufferFuel fuel st).1.buffer
        ((processEventBufferFuel fuel st).1.lastSn + 1) = none := by
  intro fuel
  induction fuel with
  | zero =>
    intro st h
    have hb : st.buffer = [] := List.length_eq_zero.mp (Nat.le_zero.mp h)
    simp [processEventBufferFuel, hb, bufGet]
  | succ n ih =>
    intro st h
    cases hg : bufGet st.buffer (st.lastSn + 1) with
    | none => simp [processEventBufferFuel, hg]
    | some v =>
      simp only [processEventBufferFuel, hg]
      exact ih _ (by
        show (bufDelete st.buffer (st.lastSn + 1)).length ≤ n
        have := bufDelete_length_lt (st.lastSn + 1) st.buffer v hg
        omega)


theorem drainSpec (f : Nat → Nat) (obs : List Nat) :
    ∀ (fuel : Nat) (st : ClientState Nat),
    st.buffer.length ≤ fuel →
    (∀ k v, bufGet st.buffer k = some v → v = f k ∧ st.lastSn < k ∧ k ∈ obs) →
    st.lastSn ≤ (processEventBufferFuel fuel st).1.lastSn ∧
    (processEventBufferFuel fuel st).2
      = (List.range' (st.lastSn + 1)
          ((processEventBufferFuel fuel st).1.lastSn - st.lastSn)).map f ∧
    (∀ k v, bufGet (processEventBufferFuel fuel st).1.buffer k = some v →
      v = f k ∧ (processEventBufferFuel fuel st).1.lastSn + 1 < k ∧ k ∈ obs) ∧
    (∀ j, j ≤ st.lastSn ∨ (bufGet st.buffer j).isSome = true →
      j ≤ (processEventBufferFuel fuel st).1.lastSn ∨
        (bufGet (processEventBufferFuel fuel st).1.buffer j).isSome = true) ∧
    (∀ j, st.lastSn < j → j ≤ (processEventBufferFuel fuel st).1.lastSn → j ∈ obs) := by
  intro fuel
  induction fuel with
  | zero =>
    intro st hlen hbuf
    have hb : st.buffer = [] := List.length_eq_zero.mp (Nat.le_zero.mp hlen)
    simp only [processEventBufferFuel]
    refine ⟨Nat.le_refl _, by simp, ?_, fun j hj => hj, fun j h1 h2 => absurd h2 (by omega)⟩
    intro k v hk
    rw [hb] at hk
    cases hk
  | succ n ih =>
    intro st hlen hbuf
    cases hg : bufGet st.buffer (st.lastSn + 1) with
    | none =>
      simp only [processEventBufferFuel, hg]
      refine ⟨Nat.le_refl _, by simp, ?_, fun j hj => hj, fun j h1 h2 => absurd h2 (by omega)⟩
      intro k v hk
      obtain ⟨e1, e2, e3⟩ := hbuf k v hk
      have hne : k ≠ st.lastSn + 1 := by
        intro e; rw [e, hg] at hk; cases hk
      exact ⟨e1, by omega, e3⟩
    | some v =>
      have hlt := bufDelete_length_lt (st.lastSn + 1) st.buffer v hg
      obtain ⟨hv1, hv2, hv3⟩ := hbuf (st.lastSn + 1) v hg
      simp only [processEventBufferFuel, hg]
      set st2 : ClientState Nat :=
        { st with lastSn := st.lastSn + 1, buffer := bufDelete st.buffer (st.lastSn + 1) }
      have hl2 : st2.lastSn = st.lastSn + 1 := rfl
      have hb2 : st2.buffer = bufDelete st.buffer (st.lastSn + 1) := rfl
      have hlen2 : st2.buffer.length ≤ n := by rw [hb2]; omega
      have hbuf2 : ∀ k w, bufGet st2.buffer k = some w →
          w = f k ∧ st2.lastSn < k ∧ k ∈ obs := by
        intro k w hk
        rw [hb2, bufGet_bufDelete] at hk
        by_cases hk1 : k = st.lastSn + 1
        · rw [if_pos hk1] at hk; cases hk
        · rw [if_neg hk1] at hk
          obtain ⟨e1, e2, e3⟩ := hbuf k w hk
          refine ⟨e1, ?_, e3⟩
          rw [hl2]
          omega
      obtain ⟨ih1, ih2, ih3, ih4, ih5⟩ := ih st2 hlen2 hbuf2
      rw [hl2] at ih1 ih2 ih5
      rw [hl2, hb2] at ih4
      refine ⟨by omega, ?_, ih3, ?_, ?_⟩
      · have harith : (processEventBufferFuel n st2).1.lastSn - st.lastSn
            = ((processEventBufferFuel n st2).1.lastSn - (st.lastSn + 1)) + 1 := by omega
        rw [harith, List.range'_succ, List.map_cons, hv1, ih2]
      · intro j hj
        rcases hj with hj | hj
        · exact ih4 j (Or.inl (by omega))
        · by_cases hj1 : j = st.lastSn + 1
          · exact ih4 j (Or.inl (by omega))
          · refine ih4 j (Or.inr ?_)
            rw [bufGet_bufDelete, if_neg hj1]
            exact hj
      · intro j h1 h2
        by_cases hj1 : j = st.lastSn + 1
        · rw [hj1]; exact hv3
        · exact ih5 j (by omega) h2

theorem handleEventInv (f : Nat → Nat) (obs : List Nat) (st : ClientState Nat) (sn : Nat)
    (hinv : SInv f obs st) :
    SInv f (obs ++ [sn]) (handleEvent st (some sn) (f sn)).1 ∧
    st.lastSn ≤ (handleEvent st (some sn) (f sn)).1.lastSn ∧
    (handleEvent st (some sn) (f sn)).2
      = (List.range' (st.lastSn + 1)
          ((handleEvent st (some sn) (f sn)).1.lastSn - st.lastSn)).map f := by
  obtain ⟨hb, hd, hc⟩ := hinv
  by_cases h1 : sn = st.lastSn + 1
  · subst h1
    simp only [handleEvent, eq_self_iff_true, if_true]
    set st1 : ClientState Nat := { st with lastSn := st.lastSn + 1 }
    have hl1 : st1.lastSn = st.lastSn + 1 := rfl
    have hbf1 : st1.buffer = st.buffer := rfl
    have hps : processEventBuffer st1 = processEventBufferFuel st1.buffer.length st1 := rfl
    rw [hps]
    have hpre : ∀ k v, bufGet st1.buffer k = some v →
        v = f k ∧ st1.lastSn < k ∧ k ∈ obs := by
      intro k v hk
      rw [hbf1] at hk
      obtain ⟨e1, e2, e3⟩ := hb k v hk
      refine ⟨e1, ?_, e3⟩
      rw [hl1]
      omega
    obtain ⟨d1, d2, d3, d4, d5⟩ :=
      drainSpec f obs st1.buffer.length st1 (Nat.le_refl _) hpre
    rw [hl1] at d1 d2 d5
    refine ⟨⟨?_, ?_, ?_⟩, by omega, ?_⟩
    · intro k v hk
      obtain ⟨e1, e2, e3⟩ := d3 k v hk
      exact ⟨e1, e2, List.mem_append_left _ e3⟩
    · intro j hj1 hj2
      by_cases hcase : j ≤ st.lastSn
      · exact List.mem_append_left _ (hd j hj1 hcase)
      · by_cases hcase2 : j = st.lastSn + 1
        · exact List.mem_append_right _ (by rw [hcase2]; exact List.mem_singleton_self _)
        · exact List.mem_append_left _ (d5 j (by omega) hj2)
    · intro j hj
      rcases List.mem_append.mp hj with hj | hj
      · rcases hc j hj with hj2 | hj2
        · exact d4 j (Or.inl (show j ≤ st1.lastSn by omega))
        · exact d4 j (Or.inr (show (bufGet st1.buffer j).isSome = true from hj2))
      · have : j = st.lastSn + 1 := List.mem_singleton.mp hj
        rw [this]
        exact Or.inl d1
    · have harith :
          (processEventBufferFuel st1.buffer.length st1).1.lastSn - st.lastSn
          = ((processEventBufferFuel st1.buffer.length st1).1.lastSn - (st.lastSn + 1)) + 1 := by
        omega
      rw [harith, List.range'_succ, List.map_cons, d2]
  · by_cases h2 : st.lastSn + 1 < sn
    · simp only [handleEvent, if_neg h1, if_pos h2]
      refine ⟨⟨?_, ?_, ?_⟩, Nat.le_refl _, by simp⟩
      · intro k v hk
        rw [bufGet_bufSet] at hk
        by_cases hk1 : k = sn
        · subst hk1
          rw [if_pos rfl] at hk
          injection hk with hv
          refine ⟨hv.symm, ?_, List.mem_append_right _ (List.mem_singleton_self _)⟩
          show st.lastSn + 1 < k
          omega
        · rw [if_neg hk1] at hk
          obtain ⟨e1, e2, e3⟩ := hb k v hk
          exact ⟨e1, e2, List.mem_append_left _ e3⟩
      · intro j hj1 hj2
        exact List.mem_append_left _ (hd j hj1 hj2)
      · intro j hj
        rcases List.mem_append.mp hj with hj | hj
        · rcases hc j hj with hj2 | hj2
          · exact Or.inl hj2
          · refine Or.inr ?_
            rw [bufGet_bufSet]
            by_cases hj1 : j = sn
            · rw [if_pos hj1]; rfl
            · rw [if_neg hj1]; exact hj2
        · refine Or.inr ?_
          rw [List.mem_singleton.mp hj, bufGet_bufSet, if_pos rfl]
          rfl
    · have hdup : sn ≤ st.lastSn := by omega
      simp only [handleEvent, if_neg h1, if_neg h2]
      refine ⟨⟨?_, ?_, ?_⟩, Nat.le_refl _, by simp⟩
      · intro k v hk
        obtain ⟨e1, e2, e3⟩ := hb k v hk
        exact ⟨e1, e2, List.mem_append_left _ e3⟩
      · intro j hj1 hj2
        exact List.mem_append_left _ (hd j hj1 hj2)
      · intro j hj
        rcases List.mem_append.mp hj with hj | hj
        · exact hc j hj
        · exact Or.inl (by rw [List.mem_singleton.mp hj]; exact hdup)

theorem observeListInv (f : Nat → Nat) :
    ∀ (sns : List Nat) (st : ClientState Nat) (obs : List Nat),
    SInv f obs st →
    SInv f (obs ++ sns) (observeList st (sns.map (fun s => (s, f s)))).1 ∧
    st.lastSn ≤ (observeList st (sns.map (fun s => (s, f s)))).1.lastSn ∧
    (observeList st (sns.map (fun s => (s, f s)))).2
      = (List.range' (st.lastSn + 1)
          ((observeList st (sns.map (fun s => (s, f s)))).1.lastSn - st.lastSn)).map f := by
  intro sns
  induction sns with
  | nil =>
    intro st obs hinv
    simp only [List.map_nil, observeList, List.append_nil]
    exact ⟨hinv, Nat.le_refl _, by simp⟩
  | cons s t ih =>
    intro st obs hinv
    simp only [List.map_cons, observeList]
    obtain ⟨e1, e2, e3⟩ := handleEventInv f obs st s hinv
    obtain ⟨g1, g2, g3⟩ := ih (handleEvent st (some s) (f s)).1 (obs ++ [s]) e1
    set b := (handleEvent st (some s) (f s)).1.lastSn
    set c := (observeList (handleEvent st (some s) (f s)).1
      (t.map (fun s => (s, f s)))).1.lastSn
    refine ⟨?_, by omega, ?_⟩
    · have hobs : obs ++ [s] ++ t = obs ++ s :: t := by simp
      rw [hobs] at g1
      exact g1
    · rw [e3, g3, ← List.map_append]
      have hb1 : b + 1 = (st.lastSn + 1) + (b - st.lastSn) := by omega
      rw [hb1, List.range'_append_1]
      have hc1 : c - b + (b - st.lastSn) = c - st.lastSn := by omega
      rw [hc1]

/-- C1: for any sequence of observed EVENT signals whose sequence numbers
lie in and cover the contiguous range 1..N (arbitrary order, duplicates
allowed), each call carrying payload `f sn`, a client starting from
`lastSn = 0` with an empty buffer dispatches exactly
`f 1, f 2, …, f N` in that order, each exactly once; moreover a single
`handleEvent` call with `sn ≤ lastSn` dispatches nothing and leaves the
state (including `lastSn` and the buffer) unchanged. -/
theorem seq_reassembler_ordered_delivery :
    (∀ (f : Nat → Nat) (N : Nat) (sns : List Nat) (st : ClientState Nat),
      st.lastSn = 0 → st.buffer = [] →
      (∀ s ∈ sns, 1 ≤ s ∧ s ≤ N) →
      (∀ j ∈ List.range' 1 N, j ∈ sns) →
      (observeList st (sns.map (fun s => (s, f s)))).2 = (List.range' 1 N).map f) ∧
    (∀ (st : ClientState Nat) (sn d : Nat), sn ≤ st.lastSn →
      handleEvent st (some sn) d = (st, [])) := by
  constructor
  · intro f N sns st h0 hbe h1 h2
    have hinv : SInv f [] st := by
      refine ⟨?_, ?_, ?_⟩
      · intro k v hk; rw [hbe] at hk; cases hk
      · intro j hj1 hj2; rw [h0] at hj2; omega
      · intro j hj; cases hj
    obtain ⟨⟨i1, i2, i3⟩, le1, out⟩ := observeListInv f sns st [] hinv
    rw [List.nil_append] at i1 i2 i3
    set L := (observeList st (sns.map (fun s => (s, f s)))).1.lastSn with hLdef
    have hle : L ≤ N := by
      by_cases hL0 : L = 0
      · omega
      · exact (h1 L (i2 L (by omega) (Nat.le_refl _))).2
    have hge : N ≤ L := by
      by_contra hLN
      have hjr : L + 1 ∈ List.range' 1 N := List.mem_range'_1.mpr ⟨by omega, by omega⟩
      rcases i3 (L + 1) (h2 (L + 1) hjr) with hvi | hvi
      · omega
      · obtain ⟨v, hv⟩ := Option.isSome_iff_exists.mp hvi
        have := (i1 (L + 1) v hv).2.1
        omega
    have hLN : L = N := by omega
    rw [h0] at out
    rw [hLN] at out
    simpa using out
  · intro st sn d hdup
    simp only [handleEvent]
    rw [if_neg (by omega : ¬ sn = st.lastSn + 1), if_neg (by omega : ¬ st.lastSn + 1 < sn)]

/-- Witness for C1 at a concrete permutation with a duplicate (N = 3,
calls with sn = 2, 3, 1, 2) and a concrete duplicate call. -/
theorem seq_reassembler_ordered_delivery_witness :
    (observeList initClient ([2, 3, 1, 2].map (fun s => (s, s * 10)))).2
      = (List.range' 1 3).map (fun s => s * 10) ∧
    handleEvent connectedClient (some 1) 7 = (connectedClient, []) :=
  ⟨seq_reassembler_ordered_delivery.1 (fun s => s * 10) 3 [2, 3, 1, 2] initClient rfl rfl
      (by decide) (by decide),
   seq_reassembler_ordered_delivery.2 connectedClient 1 7 (by decide)⟩

theorem handleReconnect_state {α : Type} (st : ClientState α) :
    (handleReconnect st).1.lastSn = 0 ∧
    (handleReconnect st).1.sessionId = none ∧
    (handleReconnect st).1.buffer = [] ∧
    (handleReconnect st).1.wsOpen = false ∧
    (handleReconnect st).1.heartbeatTimer = false ∧
    (handleReconnect st).1.pongTimeout = false := by
  unfold handleReconnect
  cases hws : st.wsOpen <;> cases hst : st.stopped <;> simp [hws, hst]

theorem drainKeysFuel {α : Type} :
    ∀ (fuel : Nat) (st : ClientState α), st.buffer.length ≤ fuel →
    (∀ k, (bufGet st.buffer k).isSome = true → st.lastSn < k) →
    st.lastSn ≤ (processEventBufferFuel fuel st).1.lastSn ∧
    ∀ k, (bufGet (processEventBufferFuel fuel st).1.buffer k).isSome = true →
      (processEventBufferFuel fuel st).1.lastSn + 1 < k := by
  intro fuel
  induction fuel with
  | zero =>
    intro st hlen hkeys
    have hb : st.buffer = [] := List.length_eq_zero.mp (Nat.le_zero.mp hlen)
    simp only [processEventBufferFuel]
    refine ⟨Nat.le_refl _, ?_⟩
    intro k hk
    rw [hb] at hk
    cases hk
  | succ n ih =>
    intro st hlen hkeys
    cases hg : bufGet st.buffer (st.lastSn + 1) with
    | none =>
      simp only [processEventBufferFuel, hg]
      refine ⟨Nat.le_refl _, ?_⟩
      intro k hk
      have h1 := hkeys k hk
      have h2 : k ≠ st.lastSn + 1 := by
        intro e; rw [e, hg] at hk; cases hk
      omega
    | some v =>
      have hlt := bufDelete_length_lt (st.lastSn + 1) st.buffer v hg
      simp only [processEventBufferFuel, hg]
      set st2 : ClientState α :=
        { st with lastSn := st.lastSn + 1, buffer := bufDelete st.buffer (st.lastSn + 1) }
      have hl2 : st2.lastSn = st.lastSn + 1 := rfl
      have hb2 : st2.buffer = bufDelete st.buffer (st.lastSn + 1) := rfl
      have hlen2 : st2.buffer.length ≤ n := by rw [hb2]; omega
      have hkeys2 : ∀ k, (bufGet st2.buffer k).isSome = true → st2.lastSn < k := by
        intro k hk
        rw [hb2, bufGet_bufDelete] at hk
        by_cases hk1 : k = st.lastSn + 1
        · rw [if_pos hk1] at hk; cases hk
        · rw [if_neg hk1] at hk
          have := hkeys k hk
          rw [hl2]
          omega
      obtain ⟨j1, j2⟩ := ih st2 hlen2 hkeys2
      rw [hl2] at j1
      exact ⟨by omega, j2⟩

theorem handleEventKeys {α : Type} (st : ClientState α) (sn : Option Nat) (d : α)
    (h : ∀ k, (bufGet st.buffer k).isSome = true → st.lastSn + 1 < k) :
    ∀ k, (bufGet (handleEvent st sn d).1.buffer k).isSome = true →
      (handleEvent st sn d).1.lastSn + 1 < k := by
  cases sn with
  | none => exact h
  | some s =>
    by_cases h1 : s = st.lastSn + 1
    · subst h1
      simp only [handleEvent, eq_self_iff_true, if_true]
      set st1 : ClientState α := { st with lastSn := st.lastSn + 1 }
      have hl1 : st1.lastSn = st.lastSn + 1 := rfl
      have hps : processEventBuffer st1 = processEventBufferFuel st1.buffer.length st1 := rfl
      rw [hps]
      refine (drainKeysFuel st1.buffer.length st1 (Nat.le_refl _) ?_).2
      intro k hk
      have := h k hk
      rw [hl1]
      omega
    · by_cases h2 : st.lastSn + 1 < s
      · simp only [handleEvent, if_neg h1, if_pos h2]
        intro k hk
        replace hk : (bufGet (bufSet st.buffer s d) k).isSome = true := hk
        rw [bufGet_bufSet] at hk
        show st.lastSn + 1 < k
        by_cases hk1 : k = s
        · omega
        · rw [if_neg hk1] at hk
          exact h k hk
      · simp only [handleEvent, if_neg h1, if_neg h2]
        exact h

/-- C5: in every state reachable by the reassembler operations from a
fresh state (`lastSn = 0`, empty buffer), every key present in the buffer
is strictly greater than `lastSn` (in fact strictly greater than
`lastSn + 1`, proved here; the claimed bound follows). -/
theorem buffer_keys_above_lastSn {α : Type} (st : ClientState α) (h : ReachableR st) :
    ∀ k, (bufGet st.buffer k).isSome = true → st.lastSn < k := by
  have strong : ∀ k, (bufGet st.buffer k).isSome = true → st.lastSn + 1 < k := by
    induction h with
    | init st h1 h2 =>
      intro k hk
      rw [h2] at hk
      cases hk
    | event st sn d _ ih => exact handleEventKeys st sn d ih
    | drain st _ ih =>
      have hnone : bufGet st.buffer (st.lastSn + 1) = none := by
        cases hg : bufGet st.buffer (st.lastSn + 1) with
        | none => rfl
        | some v =>
          have := ih (st.lastSn + 1) (by rw [hg]; rfl)
          omega
      unfold processEventBuffer
      rw [processEventBufferFuel_none _ _ hnone]
      exact ih
    | reset st _ _ =>
      intro k hk
      rw [(handleReconnect_state st).2.2.1] at hk
      cases hk
  intro k hk
  have := strong k hk
  omega

/-- Witness for C5: after one out-of-order observation from a fresh
state, the single buffered key 2 exceeds `lastSn = 0`. -/
theorem buffer_keys_above_lastSn_witness :
    (handleEvent initClient (some 2) 37).1.lastSn < 2 :=
  buffer_keys_above_lastSn (handleEvent initClient (some 2) 37).1
    (ReachableR.event initClient (some 2) 37 (ReachableR.init initClient rfl rfl))
    2 (by decide)

/-- C2: `handleResumeAck` (a successful resume) leaves `lastSn` and the
reassembly buffer untouched, modifies only `sessionId`, and restarts the
heartbeat (every other field is also unchanged); `handleReconnect` (a
full reconnect) resets `lastSn` to 0 and empties the buffer. -/
theorem resume_ack_vs_reconnect_state :
    ∀ (st : ClientState Nat) (sid : String),
      (handleResumeAck st sid).lastSn = st.lastSn ∧
      (handleResumeAck st sid).buffer = st.buffer ∧
      (handleResumeAck st sid).sessionId = some sid ∧
      (handleResumeAck st sid).heartbeatTimer = true ∧
      (handleResumeAck st sid).wsOpen = st.wsOpen ∧
      (handleResumeAck st sid).pongTimeout = st.pongTimeout ∧
      (handleResumeAck st sid).reconnectAttempts = st.reconnectAttempts ∧
      (handleResumeAck st sid).stopped = st.stopped ∧
      (handleReconnect st).1.lastSn = 0 ∧
      (handleReconnect st).1.buffer = [] := by
  intro st sid
  exact ⟨rfl, rfl, rfl, rfl, rfl, rfl, rfl, rfl,
    (handleReconnect_state st).1, (handleReconnect_state st).2.2.1⟩

/-- C3 (code bug): running the event-loop model from the claimed scenario
(heartbeat response timeout fired, session established, socket open, no
response of any kind ever arriving), up to simulated time 56000 ms — well
past the 54000 ms at which the claimed schedule (probe@2s, probe@4s,
resume@8s, resume@16s, reconnect) would have completed — the client never
sends a RESUME and never performs the full reconnect.  Instead, each extra
probe's own 6000 ms pong timeout (set inside `sendPing`) fires just before
the recovery coroutine's own 6000 ms sleep, spawns a nested
`attemptRecovery` whose entry clears `pongTimeout`, and the outer episode
then misreads `pongTimeout === null` as a received PONG: it declares
tier-1 success seven times (at 8s, 16s, …, 56s) and sends seven probes,
and the resume tier and reconnect tier are unreachable. -/
theorem recovery_tiers_never_reached :
    (simRun 21 initRecoverySim).log.countP SimAction.isResume = 0 ∧
    (simRun 21 initRecoverySim).log.countP SimAction.isReconnect = 0 ∧
    (simRun 21 initRecoverySim).log.countP SimAction.isTier1 = 7 ∧
    (simRun 21 initRecoverySim).log.countP SimAction.isPing = 7 ∧
    (simRun 21 initRecoverySim).now = 56000 := by
  decide

/-- C4: the backoff delay for attempt `n` is
`min 60000 (1000 * 2 ^ (n - 1))`; concrete values 1000 / 16000 / 60000 at
attempts 1 / 5 / 10; the delay is non-decreasing in the attempt number;
and `reconnectWithBackoff` on a non-stopped client increments
`reconnectAttempts` by one and waits exactly that delay before entering
CONNECTING. -/
theorem backoff_formula_and_monotone :
    nextDelay 1 = 1000 ∧ nextDelay 5 = 16000 ∧ nextDelay 10 = 60000 ∧
    (∀ n, nextDelay n = min 60000 (1000 * 2 ^ (n - 1))) ∧
    (∀ n m : Nat, n ≤ m → nextDelay n ≤ nextDelay m) ∧
    (∀ st : ClientState Nat, st.stopped = false →
      (reconnectWithBackoff st).1.reconnectAttempts = st.reconnectAttempts + 1 ∧
      (reconnectWithBackoff st).2
        = [NetAction.wait (nextDelay (st.reconnectAttempts + 1)),
           NetAction.enterConnecting]) := by
  refine ⟨by decide, by decide, by decide, fun n => rfl, ?_, ?_⟩
  · intro n m h
    unfold nextDelay
    exact min_le_min (Nat.le_refl _)
      (Nat.mul_le_mul_left 1000 (Nat.pow_le_pow_right (by omega) (by omega)))
  · intro st hs
    simp [reconnectWithBackoff, hs]

/-- Witness for C4: monotonicity applied at 3 ≤ 7, and the backoff action
sequence of a concrete non-stopped client. -/
theorem backoff_formula_and_monotone_witness :
    nextDelay 3 ≤ nextDelay 7 ∧
    (reconnectWithBackoff initClient).2
      = [NetAction.wait (nextDelay 1), NetAction.enterConnecting] :=
  ⟨backoff_formula_and_monotone.2.2.2.2.1 3 7 (by decide),
   (backoff_formula_and_monotone.2.2.2.2.2 initClient rfl).2⟩

/-- C6 counterexample: on a RECONNECT signal received by a connected,
non-stopped client, `handleReconnect` emits no wait action at all — it
closes the transport and immediately re-enters CONNECTING
(`connectFresh`), so no Reconnection Backoff delay is applied before
re-entering CONNECTING, contrary to the claim. -/
theorem reconnect_signal_no_backoff_counterexample :
    (handleReconnect connectedClient).2.countP NetAction.isWait = 0 ∧
    (handleReconnect connectedClient).2
      = [NetAction.closeTransport, NetAction.enterConnecting] := by
  decide

/-- C6 (amended): on receiving a RECONNECT signal the client discards the
session (`lastSn := 0`, `sessionId` cleared, buffer emptied, transport
closed) and, unless stopped, immediately re-enters CONNECTING via
`connectFresh` with no backoff wait in between; the Reconnection Backoff
delay is applied only by `reconnectWithBackoff`, i.e. after a failed
gateway fetch or a transport close — not on the RECONNECT-signal path. -/
theorem reconnect_signal_discards_and_reconnects_immediately :
    ∀ st : ClientState Nat, st.stopped = false →
      (handleReconnect st).1.lastSn = 0 ∧
      (handleReconnect st).1.sessionId = none ∧
      (handleReconnect st).1.buffer = [] ∧
      (handleReconnect st).1.wsOpen = false ∧
      (handleReconnect st).2.countP NetAction.isWait = 0 ∧
      NetAction.enterConnecting ∈ (handleReconnect st).2 ∧
      (∀ st2 : ClientState Nat, st2.stopped = false →
        (reconnectWithBackoff st2).2.countP NetAction.isWait = 1) := by
  intro st hs
  obtain ⟨f1, f2, f3, f4, _, _⟩ := handleReconnect_state st
  refine ⟨f1, f2, f3, f4, ?_, ?_, ?_⟩
  · unfold handleReconnect
    cases hws : st.wsOpen <;> simp [hws, hs, NetAction.isWait]
  · unfold handleReconnect
    cases hws : st.wsOpen <;> simp [hws, hs]
  · intro st2 hs2
    simp [reconnectWithBackoff, hs2, NetAction.isWait]

/-- Witness for C6 (amended) at a concrete connected client. -/
theorem reconnect_signal_discards_witness :
    (handleReconnect initClient).1.lastSn = 0 ∧
    (handleReconnect initClient).2.countP NetAction.isWait = 0 :=
  ⟨(reconnect_signal_discards_and_reconnects_immediately initClient rfl).1,
   (reconnect_signal_discards_and_reconnects_immediately initClient rfl).2.2.2.2.1⟩

/-- C7 (code bug): a single HELLO timeout on a fresh, non-stopped client
schedules `reconnectWithBackoff` twice — once from the rejected `connect`
promise caught in `connectFresh` and once from the socket close handler —
so `reconnectAttempts` rises by 2 (not 1) and two backoff waits (hence two
transitions into the reconnecting stage) are performed for one failed
cycle. -/
theorem hello_timeout_double_reconnect :
    (onHelloTimeout initClient).1.reconnectAttempts = initClient.reconnectAttempts + 2 ∧
    (onHelloTimeout initClient).2.countP NetAction.isWait = 2 ∧
    (onHelloTimeout initClient).2
      = [NetAction.closeTransport,
         NetAction.wait (nextDelay 1), NetAction.enterConnecting,
         NetAction.wait (nextDelay 2), NetAction.enterConnecting] := by
  decide

theorem hbGap_const (r n : Nat) : hbGap r n = hbInterval r := by
  unfold hbGap hbTickTime
  rw [Nat.succ_mul]
  rw [Nat.add_sub_cancel_left]

/-- C8 counterexample: for every possible jitter draw `r` (the full range
0..9999 of `Math.floor(Math.random() * 10000)` — the only randomness one
heartbeat run consumes), the gaps between consecutive ticks 0/1 and 1/2 of
that run coincide: `startHeartbeat` computes the jittered interval once
and `setInterval` reuses it for every tick, so successive ticks of one
running heartbeat can never use different intervals, contrary to the
claim. -/
theorem heartbeat_jitter_not_per_tick :
    ((List.range 10000).all
      (fun r => hbGap r 0 == hbGap r 1 && hbGap r 1 == hbGap r 2)) = true := by
  rw [List.all_eq_true]
  intro r _
  rw [hbGap_const, hbGap_const, hbGap_const]
  simp

/-- C8 (amended): each `startHeartbeat` call draws one jitter value
`r - 5000` with `r < 10000` uniformly, giving a tick interval
`30000 + r - 5000` in [25000, 34999] (the 30000 ms base randomized within
the ±5000 ms jitter window); that single interval is then used for every
tick of the run — the jitter is redrawn only when the heartbeat is
restarted, not on each cycle. -/
theorem heartbeat_jitter_per_run (r : Nat) (hr : r < 10000) :
    hbInterval r = 30000 + r - 5000 ∧
    25000 ≤ hbInterval r ∧ hbInterval r ≤ 34999 ∧
    ∀ n, hbGap r n = hbInterval r := by
  refine ⟨rfl, ?_, ?_, fun n => hbGap_const r n⟩
  · unfold hbInterval; omega
  · unfold hbInterval; omega

/-- Witness for C8 (amended) at the concrete draw r = 4321. -/
theorem heartbeat_jitter_per_run_witness :
    25000 ≤ hbInterval 4321 ∧ hbGap 4321 7 = hbInterval 4321 :=
  ⟨(heartbeat_jitter_per_run 4321 (by decide)).2.1,
   (heartbeat_jitter_per_run 4321 (by decide)).2.2.2 7⟩

/-- C9: with compression enabled, `parseMessage` on a binary (`Buffer`)
frame decodes the text produced by `inflateAsync` when decompression
succeeds, and falls back to interpreting the frame as plain UTF-8 text
when decompression fails; a frame whose extracted text fails to parse as
JSON yields no signal (`none`), with the decode error reported, and a
parsing text yields the decoded signal.  `parseMessage` is a total
function — every failure of the decompressor or the JSON parser is caught
inside it, so decoding never throws to its caller. -/
theorem parse_message_decompress_fallback {β γ : Type} :
    ∀ (c : Codec β γ) (b : β) (data : RawData β),
      (∀ s, c.inflate b = some s →
        decodeText true c (RawData.buffer b) = s) ∧
      (c.inflate b = none →
        decodeText true c (RawData.buffer b) = c.toUtf8 b) ∧
      (c.parseJson (decodeText true c data) = none →
        parseMessage true c data = (none, true)) ∧
      (∀ sig, c.parseJson (decodeText true c data) = some sig →
        parseMessage true c data = (some sig, false)) := by
  intro c b data
  refine ⟨?_, ?_, ?_, ?_⟩
  · intro s hs
    simp [decodeText, hs]
  · intro hs
    simp [decodeText, hs]
  · intro hp
    simp [parseMessage, hp]
  · intro sig hp
    simp [parseMessage, hp]

/-- Witness for C9 at a concrete codec: buffer 0 decompresses and parses,
buffer 1 fails decompression, falls back to plain text, and is dropped
with an error report when that text does not parse. -/
theorem parse_message_decompress_fallback_witness :
    decodeText true demoCodec (RawData.buffer 0) = "sig" ∧
    decodeText true demoCodec (RawData.buffer 1) = "garbled" ∧
    parseMessage true demoCodec (RawData.buffer 1) = (none, true) ∧
    parseMessage true demoCodec (RawData.buffer 0)
      = (some { s := 0, d := 9, sn := some 1 }, false) :=
  ⟨(parse_message_decompress_fallback demoCodec 0 (RawData.buffer 0)).1 "sig" (by decide),
   (parse_message_decompress_fallback demoCodec 1 (RawData.buffer 1)).2.1 (by decide),
   (parse_message_decompress_fallback demoCodec 1 (RawData.buffer 1)).2.2.1 (by decide),
   (parse_message_decompress_fallback demoCodec 0 (RawData.buffer 0)).2.2.2 _ (by decide)⟩

/-- C10: an EVENT signal whose `sn` field is absent is silently dropped:
`handleEvent` dispatches nothing and leaves the entire state — in
particular `lastSn` and the reassembly buffer — unchanged. -/
theorem event_without_sn_dropped :
    ∀ (st : ClientState Nat) (d : Nat), handleEvent st none d = (st, []) := by
  intro st d
  rfl
